import Mathlib

/-!
Verification development for the `pyip` library (`pyip.py`): a shallow
embedding in Lean 4 of its data model and operations, plus theorems about
the behavior of `IPAddress`, `IPNetwork` (CIDR ranges) and `IPRange`
(dash / explicit-pair ranges).

Modelling conventions:
* Python's arbitrary-precision non-negative integers are `Nat`; values that
  may be negative (parsed CIDR prefixes, indices, slice components) are `Int`.
* Python text is modelled as `List Char` (obtained from Lean `String`
  literals via `.data`); `str.split(sep)` is `splitOnChar` / the `"::"`
  splitter, `str.strip()` is `pyStrip`, `c in s` is `List.any`.
* `inet_pton(AF_INET, ·)` / `inet_pton(AF_INET6, ·)` (used by
  `Converter.v4_to_int` / `v6_to_int`) are modelled by `parseV4` / `parseV6`,
  following the standard glibc acceptance rules: dotted-decimal with four
  octets, no leading zeros, each ≤ 255; colon-hex with at most one `::`
  (covering at least one zero group), 1–4 hex digit groups, and an optional
  embedded IPv4 tail in the last position.
* Python exceptions become an `Err` value in `Except`; `ValueError` carries
  the message text the source builds (interpolated data is appended where
  the source uses `%s`; the message of Python's own `int()` failure is
  abbreviated to its constant prefix).
* Generators become pure `List` producers; fallible methods return `Except`.
-/

namespace Pyip

set_option maxRecDepth 16000

/-- Text is a list of characters (Python `str`). -/
abbrev Chars := List Char

/-- Python exception values raised by the library. -/
inductive Err where
  /-- Python `AttributeError` (with message text). -/
  | attributeError (msg : Chars)
  /-- Python `ValueError` (with message text). -/
  | valueError (msg : Chars)
  /-- Python `TypeError` (message `unsupported index type %r`). -/
  | typeError
  /-- Python `IndexError` (message `index out range`). -/
  | indexError
deriving DecidableEq, Repr

/-- Decide whether an `Except` result is an error. -/
def isErr {ε α : Type} : Except ε α → Bool
  | .error _ => true
  | .ok _ => false

/-! ### Python string primitives -/

/-- Model of Python `str.split(sep)` for a single-character separator:
splits on every occurrence, keeping empty pieces. -/
def splitOnChar (sep : Char) : Chars → List Chars
  | [] => [[]]
  | c :: rest =>
    if c = sep then [] :: splitOnChar sep rest
    else
      match splitOnChar sep rest with
      | h :: t => (c :: h) :: t
      | [] => [[c]]

/-- Model of Python `str.split` on the two-character separator `"::"`:
splits at each non-overlapping occurrence, scanning left to right. -/
def splitOnColonColon : Chars → List Chars
  | [] => [[]]
  | ':' :: ':' :: rest => [] :: splitOnColonColon rest
  | c :: rest =>
    match splitOnColonColon rest with
    | h :: t => (c :: h) :: t
    | [] => [[c]]

/-- Characters Python `str.strip()` removes (ASCII whitespace). -/
def isSpaceCh (c : Char) : Bool :=
  c = ' ' ∨ c = '\t' ∨ c = '\n' ∨ c = '\r' ∨ c = '\x0b' ∨ c = '\x0c'

/-- Model of Python `str.strip()`: drop whitespace from both ends. -/
def pyStrip (cs : Chars) : Chars :=
  ((cs.dropWhile isSpaceCh).reverse.dropWhile isSpaceCh).reverse

/-! ### Digits -/

/-- ASCII decimal digit test. -/
def isDigitCh (c : Char) : Bool := 48 ≤ c.toNat ∧ c.toNat ≤ 57

/-- ASCII hexadecimal digit test. -/
def isHexCh (c : Char) : Bool :=
  (48 ≤ c.toNat ∧ c.toNat ≤ 57) ∨ (97 ≤ c.toNat ∧ c.toNat ≤ 102) ∨
    (65 ≤ c.toNat ∧ c.toNat ≤ 70)

/-- Value of a hexadecimal digit character. -/
def hexDigitVal (c : Char) : Nat :=
  if c.toNat ≤ 57 then c.toNat - 48
  else if 97 ≤ c.toNat then c.toNat - 87
  else c.toNat - 55

/-- Value of a string of decimal digits. -/
def decVal (cs : Chars) : Nat := cs.foldl (fun a c => a * 10 + (c.toNat - 48)) 0

/-- Value of a string of hexadecimal digits. -/
def hexVal (cs : Chars) : Nat := cs.foldl (fun a c => a * 16 + hexDigitVal c) 0

/-- Model of Python `int(str)`: optional sign followed by decimal digits
(the whitespace and underscore tolerance of `int` is not used by any input
considered here). -/
def pyIntOfChars (cs : Chars) : Option Int :=
  let digits : Chars → Option Nat := fun ds =>
    if ds ≠ [] ∧ ds.all isDigitCh then some (decVal ds) else none
  match cs with
  | '-' :: rest => (digits rest).map (fun n => -(n : Int))
  | '+' :: rest => (digits rest).map (fun n => (n : Int))
  | _ => (digits cs).map (fun n => (n : Int))

/-! ### `Converter` (pyip.py lines 10–51) -/

/-- Largest IPv4 integer (`Converter.v4_MAX`). -/
def v4_MAX : Nat := 4294967295

/-- Largest IPv6 integer (`Converter.v6_MAX`). -/
def v6_MAX : Nat := 340282366920938463463374607431768211455

/-- One dotted-decimal octet as accepted by `inet_pton(AF_INET)`:
nonempty decimal digits, no leading zero, value at most 255. -/
def parseOctet (cs : Chars) : Option Nat :=
  if cs ≠ [] ∧ cs.all isDigitCh ∧ (cs.length = 1 ∨ cs.head? ≠ some '0') ∧
      decVal cs ≤ 255 then
    some (decVal cs)
  else none

/-- Model of `inet_pton(AF_INET, s)` followed by `unpack('!L')`: the 32-bit
integer of a dotted-decimal IPv4 string, or `none` when invalid. -/
def parseV4 (cs : Chars) : Option Nat :=
  match splitOnChar '.' cs with
  | [a, b, c, d] => do
    let a ← parseOctet a
    let b ← parseOctet b
    let c ← parseOctet c
    let d ← parseOctet d
    pure (a * 16777216 + b * 65536 + c * 256 + d)
  | _ => none

/-- One 16-bit colon-hex group: one to four hexadecimal digits. -/
def parseHextet (cs : Chars) : Option Nat :=
  if cs ≠ [] ∧ cs.length ≤ 4 ∧ cs.all isHexCh then some (hexVal cs) else none

/-- Parse a colon-separated list of plain hextets. -/
def parseHextets : List Chars → Option (List Nat)
  | [] => some []
  | t :: ts => do
    let v ← parseHextet t
    let vs ← parseHextets ts
    pure (v :: vs)

/-- Parse one side of an IPv6 string into its 16-bit groups; on the tail
side the final group may be an embedded dotted-decimal IPv4 address, which
contributes two 16-bit groups. -/
def parseTailGroups (cs : Chars) : Option (List Nat) :=
  if cs = [] then some []
  else
    match (splitOnChar ':' cs).reverse with
    | [] => none
    | last :: revInit => do
      let init ← parseHextets revInit.reverse
      let tail ←
        if last.any (· = '.') then
          (parseV4 last).map (fun n => [n / 65536, n % 65536])
        else (parseHextet last).map (fun v => [v])
      pure (init ++ tail)

/-- Parse the left-hand side of a compressed IPv6 string into its 16-bit
groups (plain hextets only; empty when `::` starts the string). -/
def parseLeftGroups (cs : Chars) : Option (List Nat) :=
  if cs = [] then some [] else parseHextets (splitOnChar ':' cs)

/-- Combine eight 16-bit groups into the 128-bit integer. -/
def assembleV6 (units : List Nat) : Nat :=
  units.foldl (fun a u => a * 65536 + u) 0

/-- Model of `inet_pton(AF_INET6, s)` followed by `unpack('!QQ')` and
recombination (`Converter.v6_to_int`'s conversion): the 128-bit integer of
a colon-hex IPv6 string, or `none` when invalid. -/
def parseV6 (cs : Chars) : Option Nat :=
  match splitOnColonColon cs with
  | [whole] => do
    let units ← parseTailGroups whole
    if units.length = 8 then pure (assembleV6 units) else none
  | [l, r] => do
    let left ← parseLeftGroups l
    let right ← parseTailGroups r
    if left.length + right.length ≤ 7 then
      pure (assembleV6 (left ++ List.replicate (8 - left.length - right.length) 0 ++ right))
    else none
  | _ => none

/-- Message text `illegal IP address ` (`Converter.v4_to_int` / `v6_to_int`). -/
def msgIllegalIP : Chars := "illegal IP address ".data

/-- Embedding of `Converter.v4_to_int` (pyip.py lines 24–29). -/
def v4_to_int (s : Chars) : Except Err Nat :=
  match parseV4 s with
  | some n => .ok n
  | none => .error (.valueError (msgIllegalIP ++ s))

/-- Embedding of `Converter.v6_to_int` (pyip.py lines 31–37). -/
def v6_to_int (s : Chars) : Except Err Nat :=
  match parseV6 s with
  | some n => .ok n
  | none => .error (.valueError (msgIllegalIP ++ s))

/-- Version-dispatched text-to-integer conversion: every class binds
`self.to_int = v4_to_int if self.version == 4 else v6_to_int`. -/
def to_int (version : Nat) (s : Chars) : Except Err Nat :=
  if version = 4 then v4_to_int s else v6_to_int s

/-- Embedding of `Converter.get_version` for a text input
(pyip.py lines 20–21): version 4 exactly when the text contains `'.'`. -/
def get_version_str (s : Chars) : Nat := if s.any (· = '.') then 4 else 6

/-- Embedding of `Converter.get_version` for an integer input
(pyip.py lines 18–19). -/
def get_version_int (n : Int) : Nat :=
  if 0 ≤ n ∧ n ≤ (v4_MAX : Int) then 4 else 6

/-- Python `version or fallback`: an explicit version is used unless it is
falsy (`None` in the source, or `0` by Python truthiness). -/
def resolveVersion (version? : Option Nat) (fallback : Nat) : Nat :=
  match version? with
  | some v => if v = 0 then fallback else v
  | none => fallback

/-- Maximum bits per IP version: `self.bit = 32 if version == 4 else 128`
(pyip.py line 89). -/
def bitFor (version : Nat) : Nat := if version = 4 then 32 else 128

/-! ### `IPAddress` (pyip.py lines 55–73) -/

/-- A Python value that is either text or an integer (the `ip` argument of
`IPAddress`). -/
inductive StrOrInt where
  /-- A textual value. -/
  | str (s : Chars)
  /-- An integer value. -/
  | int (n : Int)
deriving DecidableEq, Repr

/-- Embedding of `Converter.get_version` on either input form. -/
def get_version : StrOrInt → Nat
  | .str s => get_version_str s
  | .int n => get_version_int n

/-- Embedding of the `IPAddress` object: the stored value and the resolved
version (the `int_`, `to_int` and `to_addr` attributes are functions of the
version and are embedded as the version-dispatched functions above). -/
structure IPAddress where
  /-- The stored `ip` value, text or integer. -/
  ip : StrOrInt
  /-- The resolved IP version. -/
  version : Nat
deriving DecidableEq, Repr

/-- Embedding of `IPAddress.__init__` (pyip.py lines 60–65): stores the
value and resolves the version; it performs no parsing and cannot fail. -/
def mkIPAddress (ip : StrOrInt) (version? : Option Nat) : IPAddress :=
  { ip := ip, version := resolveVersion version? (get_version ip) }

/-- Embedding of `IPAddress.__int__` (pyip.py lines 67–69): convert the
stored text with the address's own version codec, or return the stored
integer unchanged. -/
def ipaddr_int (a : IPAddress) : Except Err Int :=
  match a.ip with
  | .str s => (to_int a.version s).map (fun n => (n : Int))
  | .int n => .ok n

/-! ### `IPNetwork` (pyip.py lines 77–159) -/

/-- Message text `cidr identifying attribute missing '/'`. -/
def msgMissingSlash : Chars := "cidr identifying attribute missing '/'".data

/-- Message text `invalid IPNetwork ` (pyip.py line 141); the source
interpolates the network text after it. -/
def msgInvalidIPNetwork : Chars := "invalid IPNetwork ".data

/-- Message of Python's own `int()` parse failure (constant prefix of
`invalid literal for int() with base 10`). -/
def msgBadIntLiteral : Chars := "invalid literal for int() with base 10".data

/-- Message for unpacking a `split` result of the wrong arity (Python's
`ValueError` from `a,b = ...`). -/
def msgUnpack : Chars := "unpack".data

/-- Core of `IPNetwork.expand` (pyip.py lines 140–147), taking the address
text and the already-parsed prefix integer: reject a prefix above the bit
width, convert the address, and mask.  The `ValueError` message of line 141
interpolates the full network text, passed here as `netText`. -/
def expandCore (version : Nat) (netText ipText : Chars) (cidr : Int) : Except Err (Nat × Nat) :=
  if cidr > (bitFor version : Int) then
    .error (.valueError (msgInvalidIPNetwork ++ netText))
  else do
    let bits : Nat := ((bitFor version : Int) - cidr).toNat
    let ip ← to_int version ipText
    let lo := (ip >>> bits) <<< bits
    let hi := lo ||| ((1 <<< bits) - 1)
    pure (lo, hi)

/-- Embedding of `IPNetwork.expand` (pyip.py lines 137–147): split the
network text on `/` (the `a,b = split(...)` unpacking requires exactly two
pieces), parse the prefix with `int(...)`, then run `expandCore`. -/
def expand (version : Nat) (network : Chars) : Except Err (Nat × Nat) :=
  match splitOnChar '/' network with
  | [ipText, cidrText] =>
    match pyIntOfChars cidrText with
    | none => .error (.valueError msgBadIntLiteral)
    | some cidr => expandCore version network ipText cidr
  | _ => .error (.valueError msgUnpack)

/-- Embedding of the `IPNetwork` object: network text, version, and the
expanded `(lo, hi)` bounds. -/
structure IPNetwork where
  /-- The CIDR text the object was built from. -/
  network : Chars
  /-- The resolved IP version. -/
  version : Nat
  /-- The expanded inclusive bounds `(lo, hi)`. -/
  range : Nat × Nat
deriving DecidableEq, Repr

/-- Embedding of `IPNetwork.__init__` (pyip.py lines 82–90): require a `/`,
resolve the version, and expand the CIDR. -/
def mkIPNetwork (network : Chars) (version? : Option Nat) : Except Err IPNetwork :=
  if ¬ network.any (· = '/') then .error (.attributeError msgMissingSlash)
  else
    let v := resolveVersion version? (get_version_str network)
    (expand v network).map (fun r => { network := network, version := v, range := r })

/-- Embedding of `__len__` (pyip.py lines 92–93 and 186–187), computed in
Python's unbounded signed arithmetic: `(hi + 1) - lo`. -/
def lenZ (lo hi : Nat) : Int := ((hi : Int) + 1) - (lo : Int)

/-! ### `IPRange` (pyip.py lines 163–251) -/

/-- Message text `range identifying attribute missing '-'`. -/
def msgMissingDash : Chars := "range identifying attribute missing '-'".data

/-- Message text `lower bound IP greater than upper bound` (pyip.py line 237). -/
def msgBoundOrder : Chars := "lower bound IP greater than upper bound".data

/-- Message text `missing parameter for IPRange initialization`. -/
def msgMissingParam : Chars := "missing parameter for IPRange initialization".data

/-- Core of `IPRange.expand` after the `split('-')` (pyip.py lines 234–239):
strip and convert both bounds, failing when the upper is below the lower. -/
def expandRangeParts (version : Nat) (startText endText : Chars) : Except Err (Nat × Nat) := do
  let lo ← to_int version (pyStrip startText)
  let hi ← to_int version (pyStrip endText)
  if hi < lo then .error (.valueError msgBoundOrder) else pure (lo, hi)

/-- Embedding of `IPRange.expand` (pyip.py lines 231–239): split the dash
text on `-` (unpacking requires exactly two pieces) and process the bounds. -/
def expandRange (version : Nat) (range_ : Chars) : Except Err (Nat × Nat) :=
  match splitOnChar '-' range_ with
  | [startText, endText] => expandRangeParts version startText endText
  | _ => .error (.valueError msgUnpack)

/-- The explicit `(start, stop)` branch of `IPRange.__init__`
(pyip.py line 181): strip and convert both bounds with no ordering check. -/
def pairRange (version : Nat) (start stop : Chars) : Except Err (Nat × Nat) := do
  let lo ← to_int version (pyStrip start)
  let hi ← to_int version (pyStrip stop)
  pure (lo, hi)

/-- Embedding of the `IPRange` object: version and `(lo, hi)` bounds. -/
structure IPRange where
  /-- The resolved IP version. -/
  version : Nat
  /-- The stored inclusive bounds `(lo, hi)`. -/
  range : Nat × Nat
deriving DecidableEq, Repr

/-- Python truthiness of an optional string (`None` and `""` are falsy). -/
def pyTruthy : Option Chars → Bool
  | some s => ¬ s.isEmpty
  | none => false

/-- Python `range_ or start` on optional strings. -/
def pyOrOpt (a b : Option Chars) : Option Chars :=
  if pyTruthy a then a else b

/-- Embedding of `IPRange.__init__` (pyip.py lines 168–184): identify the
version from `range_ or start` (falling back to 4 when neither is usable,
per `get_version`'s final fallback), then either expand dash text (which
must contain `-`), convert an explicit `(start, stop)` pair, or fail. -/
def mkIPRange (range_ start stop : Option Chars) (version? : Option Nat) : Except Err IPRange :=
  let rs := pyOrOpt range_ start
  let fallbackV := match rs with
    | some s => get_version_str s
    | none => 4
  let v := resolveVersion version? fallbackV
  if pyTruthy range_ then
    match range_ with
    | some r =>
      if ¬ r.any (· = '-') then .error (.attributeError msgMissingDash)
      else (expandRange v r).map (fun rg => { version := v, range := rg })
    | none => .error (.attributeError msgMissingDash)
  else if pyTruthy start ∧ pyTruthy stop then
    match start, stop with
    | some s, some t => (pairRange v s t).map (fun rg => { version := v, range := rg })
    | _, _ => .error (.valueError msgMissingParam)
  else .error (.valueError msgMissingParam)

/-! ### Shared range operations

`IPNetwork` and `IPRange` carry line-for-line identical `__len__`,
`__contains__`, `__getitem__`, `__iter__` and `iter_` methods (pyip.py
lines 92–133/149–159 and 186–227/241–251); each is embedded once over the
bounds `(lo, hi)` and the version. -/

/-- Candidate argument forms of `__contains__`: an `IPAddress`, a raw
integer, or text. -/
inductive Cand where
  /-- An `IPAddress` object. -/
  | addr (a : IPAddress)
  /-- A raw integer. -/
  | int (n : Int)
  /-- A textual address. -/
  | text (s : Chars)
deriving DecidableEq, Repr

/-- Normalization step of `__contains__` (pyip.py lines 96–99): an
`IPAddress` is converted with `int(ip)` (hence with the address's own
version codec), a non-`IPAddress` non-integer is converted with the
range's own `to_int`, and an integer passes unchanged. -/
def containsKey (version : Nat) : Cand → Except Err Int
  | .addr a => ipaddr_int a
  | .int n => .ok n
  | .text s => (to_int version s).map (fun n => (n : Int))

/-- Embedding of `__contains__` (pyip.py lines 95–100 and 189–194):
normalize the candidate, then test `lo <= ip <= hi`. -/
def containsRange (lo hi version : Nat) (cand : Cand) : Except Err Bool := do
  let x ← containsKey version cand
  pure (decide ((lo : Int) ≤ x) && decide (x ≤ (hi : Int)))

/-! #### Python slice and range semantics -/

/-- Model of CPython `slice.indices(length)` (`PySlice_GetIndicesEx`):
normalize the optional start/stop/step against the length, clamping
negative and out-of-range values.  `none` models the `ValueError` raised
for a zero step or a negative length. -/
def pyIndices (length : Int) (s t k : Option Int) : Option (Int × Int × Int) :=
  if length < 0 then none
  else
    let step := k.getD 1
    if step = 0 then none
    else
      let lower : Int := if step < 0 then -1 else 0
      let upper : Int := if step < 0 then length - 1 else length
      let adjust : Int → Int := fun v =>
        let v := if v < 0 then v + length else v
        if v < lower then lower else if v > upper then upper else v
      let start := match s with
        | none => if step < 0 then upper else lower
        | some v => adjust v
      let stop := match t with
        | none => if step < 0 then lower else upper
        | some v => adjust v
      some (start, stop, step)

/-- Number of elements of Python `range(start, stop, step)` (`step ≠ 0`). -/
def pyRangeLen (start stop step : Int) : Nat :=
  if 0 < step then
    if stop ≤ start then 0 else ((stop - start - 1).toNat / step.toNat) + 1
  else
    if start ≤ stop then 0 else ((start - stop - 1).toNat / (-step).toNat) + 1

/-- Elements of Python `range(start, stop, step)` (`step ≠ 0`), in order. -/
def pyRangeList (start stop step : Int) : List Int :=
  (List.range (pyRangeLen start stop step)).map (fun i => start + (i : Int) * step)

/-- Embedding of the slice branch of `__getitem__` (pyip.py lines 108–117
and 202–211): normalize with `indices(len(self))`; under the guard
`start + step < 0 or step > stop` produce the single address at `lo`,
otherwise list `range(lo + start, lo + stop, step)`.  Each produced integer
is wrapped by the source as `IPAddress(x, self.version)`. -/
def getitemSlice (lo hi : Nat) (s t k : Option Int) : Except Err (List Int) :=
  match pyIndices (lenZ lo hi) s t k with
  | none => .error (.valueError msgUnpack)
  | some (start, stop, step) =>
    if start + step < 0 ∨ step > stop then .ok [(lo : Int)]
    else .ok (pyRangeList ((lo : Int) + start) ((lo : Int) + stop) step)

/-- Embedding of the integer branch of `__getitem__` (pyip.py lines
121–130 and 215–224), after `int(index)` has produced `i`. -/
def getitemInt (lo hi : Nat) (i : Int) : Except Err Int :=
  if -(lenZ lo hi) ≤ i ∧ i < 0 then .ok ((hi : Int) + i + 1)
  else if 0 ≤ i ∧ i ≤ lenZ lo hi - 1 then .ok ((lo : Int) + i)
  else .error .indexError

/-- Truncation of a rational toward zero: the value of Python `int(float)`
(floats are modelled as the exact rationals they denote). -/
def pyTrunc (q : ℚ) : Int := q.num.tdiv q.den

/-- Index argument forms of `__getitem__`: a slice object, an integer, a
float, or text. -/
inductive PyIndex where
  /-- A slice object with optional start, stop and step. -/
  | slice (s t k : Option Int)
  /-- An integer index. -/
  | int (i : Int)
  /-- A float index (modelled as the exact rational it denotes). -/
  | float (q : ℚ)
  /-- A textual index. -/
  | text (s : Chars)
deriving DecidableEq, Repr

/-- Model of Python `int(index)` on a non-slice index: identity on an
integer, truncation toward zero on a float, and a decimal parse on text
(`none` models the `ValueError` for unparsable text). -/
def pyIntOfIndex : PyIndex → Option Int
  | .slice _ _ _ => none
  | .int i => some i
  | .float q => some (pyTrunc q)
  | .text s => pyIntOfChars s

/-- Result of `__getitem__`: a single `IPAddress` integer or a list of
them (each wrapped by the source as `IPAddress(·, self.version)`). -/
inductive GetItem where
  /-- One address, from an integer index. -/
  | one (x : Int)
  /-- A list of addresses, from a slice index. -/
  | many (xs : List Int)
deriving DecidableEq, Repr

/-- Embedding of the full `__getitem__` dispatch (pyip.py lines 105–135 and
199–229): a slice (the only index form with an `indices` attribute) goes to
the slice branch; otherwise `int(index)` is attempted, its `ValueError`
becoming `TypeError('unsupported index type %r')`, and the integer branch
runs. -/
def getitemF (lo hi : Nat) (idx : PyIndex) : Except Err GetItem :=
  match idx with
  | .slice s t k => (getitemSlice lo hi s t k).map .many
  | other =>
    match pyIntOfIndex other with
    | none => .error .typeError
    | some i => (getitemInt lo hi i).map .one

/-- Embedding of `iter_` (pyip.py lines 149–159 and 241–251): the generator
loop yielding `start + index` while it does not exceed `stop`. -/
def iterLoop (start stop index : Nat) : List Nat :=
  if start + index > stop then []
  else (start + index) :: iterLoop start stop (index + 1)
termination_by stop + 1 - (start + index)
decreasing_by omega

/-- The full sequence produced by one fresh `iter_()` call on bounds
`(lo, hi)` (the loop starts at `index = 0`). -/
def iterRange (lo hi : Nat) : List Nat := iterLoop lo hi 0

/-- Modelled from the spec: normalization of a `__contains__` candidate
"to integer via the same version's codec", i.e. the *range's* codec applied
to whatever text the candidate carries (an integer passes unchanged).
Compared against `containsKey`, the normalization the code performs. -/
def rangeCodecNormalize (version : Nat) : Cand → Except Err Int
  | .addr a =>
    match a.ip with
    | .str s => (to_int version s).map (fun n => (n : Int))
    | .int n => .ok n
  | .int n => .ok n
  | .text s => (to_int version s).map (fun n => (n : Int))

/-- Modelled from the spec: the result Python slice semantics prescribe for
a slice of the interval `[lo, hi]` — the integers `lo + x` for `x` in
`range(start, stop, step)` as normalized by `slice.indices`. -/
def pySliceExpected (lo hi : Nat) (s t k : Option Int) : Option (List Int) :=
  (pyIndices (lenZ lo hi) s t k).map
    (fun v => (pyRangeList v.1 v.2.1 v.2.2).map (fun x => (lo : Int) + x))

/-! ### Concrete inputs used in witnesses and counterexamples -/

/-- Text `10.0.0.0`. -/
def t10_0_0_0 : Chars := "10.0.0.0".data

/-- Text `10.0.0.255`. -/
def t10_0_0_255 : Chars := "10.0.0.255".data

/-- Text `10.0.0.5`. -/
def t10_0_0_5 : Chars := "10.0.0.5".data

/-- Text `10.0.0.10`. -/
def t10_0_0_10 : Chars := "10.0.0.10".data

/-- Text `10.0.0.0/24`. -/
def tNet24 : Chars := "10.0.0.0/24".data

/-- Text for the CIDR `10.0.0.0` with negative prefix length `-1`. -/
def tNetNeg : Chars := "10.0.0.0/-1".data

/-- Text `2001:db8::`. -/
def tV6Ip : Chars := "2001:db8::".data

/-- Text `2001:db8::/32`. -/
def tV6Net32 : Chars := "2001:db8::/32".data

/-- Text `::ffff:1.2.3.4` (valid IPv6 with an embedded IPv4 tail). -/
def tTail : Chars := "::ffff:1.2.3.4".data

/-- Text `::ffff:1.2.3.4/96`. -/
def tTailNet96 : Chars := "::ffff:1.2.3.4/96".data

/-- Text `abc`. -/
def tAbc : Chars := "abc".data

/-- Text `5`. -/
def tFive : Chars := "5".data

/-- The rational 27/10, standing for the Python float `2.7` (whose exact
binary value also truncates to 2). -/
def qTwoPointSeven : ℚ := ⟨27, 10, by decide, by decide⟩

/-! ## Helper instances and lemmas -/

instance {ε α : Type} [DecidableEq ε] [DecidableEq α] : DecidableEq (Except ε α) :=
  fun a b =>
    match a, b with
    | .ok x, .ok y => if h : x = y then .isTrue (by rw [h]) else .isFalse (by simp [h])
    | .error x, .error y => if h : x = y then .isTrue (by rw [h]) else .isFalse (by simp [h])
    | .ok _, .error _ => .isFalse (by simp)
    | .error _, .ok _ => .isFalse (by simp)

theorem lo_or_mask (q b : ℕ) :
    (q <<< b) ||| ((1 <<< b) - 1) = q * 2 ^ b + (2 ^ b - 1) := by
  have h1 : (1 : ℕ) <<< b = 2 ^ b := by rw [Nat.shiftLeft_eq, one_mul]
  have h2 : (2 : ℕ) ^ b - 1 < 2 ^ b := by
    have := Nat.two_pow_pos b; omega
  rw [Nat.shiftLeft_eq, h1, mul_comm q]
  exact (Nat.mul_add_lt_is_or h2 q).symm

theorem mask_bounds {bit b ip : ℕ} (hb : b ≤ bit) (hip : ip < 2 ^ bit) :
    (ip >>> b) <<< b ≤ ((ip >>> b) <<< b) ||| ((1 <<< b) - 1) ∧
      ((ip >>> b) <<< b) ||| ((1 <<< b) - 1) < 2 ^ bit := by
  rw [lo_or_mask, Nat.shiftLeft_eq]
  constructor
  · exact Nat.le_add_right _ _
  · have hq : ip >>> b = ip / 2 ^ b := Nat.shiftRight_eq_div_pow ip b
    have hsplit : (2 : ℕ) ^ b * 2 ^ (bit - b) = 2 ^ bit := by
      rw [← pow_add]; congr 1; omega
    have hqlt : ip >>> b < 2 ^ (bit - b) := by
      rw [hq, Nat.div_lt_iff_lt_mul (Nat.two_pow_pos b)]
      calc ip < 2 ^ bit := hip
        _ = 2 ^ (bit - b) * 2 ^ b := by rw [mul_comm]; exact hsplit.symm
    have hmul : (ip >>> b + 1) * 2 ^ b ≤ 2 ^ bit := by
      calc (ip >>> b + 1) * 2 ^ b ≤ 2 ^ (bit - b) * 2 ^ b := Nat.mul_le_mul_right _ hqlt
        _ = 2 ^ bit := by rw [mul_comm]; exact hsplit
    have hpos := Nat.two_pow_pos b
    have hexp : (ip >>> b + 1) * 2 ^ b = ip >>> b * 2 ^ b + 2 ^ b := by ring
    omega

theorem parseOctet_le {cs : Chars} {v : ℕ} (h : parseOctet cs = some v) : v ≤ 255 := by
  unfold parseOctet at h
  split at h
  · rename_i hc
    cases h
    exact hc.2.2.2
  · exact absurd h (by simp)

theorem parseV4_lt {cs : Chars} {n : ℕ} (h : parseV4 cs = some n) : n < 2 ^ 32 := by
  unfold parseV4 at h
  split at h
  · rename_i a b c d
    simp only [Option.bind_eq_bind, Option.bind_eq_some, Option.pure_def,
      Option.some.injEq] at h
    obtain ⟨va, ha, vb, hb, vc, hc, vd, hd, hn⟩ := h
    have h1 := parseOctet_le ha
    have h2 := parseOctet_le hb
    have h3 := parseOctet_le hc
    have h4 := parseOctet_le hd
    have : (2 : ℕ) ^ 32 = 4294967296 := by norm_num
    omega
  · exact absurd h (by simp)

theorem hexDigitVal_lt {c : Char} (h : isHexCh c = true) : hexDigitVal c < 16 := by
  unfold isHexCh at h
  simp only [decide_eq_true_eq] at h
  unfold hexDigitVal
  split
  · omega
  · split <;> omega

theorem hexFold_lt {cs : Chars} (h : ∀ c ∈ cs, isHexCh c = true) (acc : ℕ) :
    cs.foldl (fun a c => a * 16 + hexDigitVal c) acc < (acc + 1) * 16 ^ cs.length := by
  induction cs generalizing acc with
  | nil => simp
  | cons c cs ih =>
    have hd : hexDigitVal c < 16 := hexDigitVal_lt (h c (by simp))
    have htail := ih (fun x hx => h x (by simp [hx])) (acc * 16 + hexDigitVal c)
    calc List.foldl (fun a c => a * 16 + hexDigitVal c) (acc * 16 + hexDigitVal c) cs
        < (acc * 16 + hexDigitVal c + 1) * 16 ^ cs.length := htail
      _ ≤ ((acc + 1) * 16) * 16 ^ cs.length := Nat.mul_le_mul_right _ (by omega)
      _ = (acc + 1) * 16 ^ (cs.length + 1) := by ring

theorem parseHextet_lt {cs : Chars} {v : ℕ} (h : parseHextet cs = some v) : v < 65536 := by
  unfold parseHextet at h
  split at h
  · rename_i hc
    cases h
    have hlt : hexVal cs < 16 ^ cs.length := by
      have := @hexFold_lt cs (by
        intro c hc'
        exact (List.all_eq_true.mp hc.2.2) c hc') 0
      simpa [hexVal] using this
    have hle : (16 : ℕ) ^ cs.length ≤ 16 ^ 4 :=
      Nat.pow_le_pow_right (by norm_num) hc.2.1
    have : (16 : ℕ) ^ 4 = 65536 := by norm_num
    omega
  · exact absurd h (by simp)

theorem parseHextets_lt {ts : List Chars} {vs : List ℕ} (h : parseHextets ts = some vs) :
    ∀ v ∈ vs, v < 65536 := by
  induction ts generalizing vs with
  | nil => cases h; simp
  | cons t ts ih =>
    unfold parseHextets at h
    simp only [Option.bind_eq_bind, Option.bind_eq_some, Option.pure_def,
      Option.some.injEq] at h
    obtain ⟨v, hv, vs', hvs', rfl⟩ := h
    intro x hx
    rcases List.mem_cons.mp hx with rfl | hx'
    · exact parseHextet_lt hv
    · exact ih hvs' x hx'

theorem parseTailGroups_lt {cs : Chars} {vs : List ℕ} (h : parseTailGroups cs = some vs) :
    ∀ v ∈ vs, v < 65536 := by
  unfold parseTailGroups at h
  split at h
  · cases h; simp
  · split at h
    · exact absurd h (by simp)
    · rename_i last revInit _
      cases hinit : parseHextets revInit.reverse with
      | none => rw [hinit] at h; exact absurd h (by simp)
      | some init =>
        rw [hinit] at h
        cases hdot : last.any (· = '.') with
        | true =>
          simp only [hdot, if_true] at h
          cases hv4 : parseV4 last with
          | none => rw [hv4] at h; exact absurd h (by simp)
          | some n =>
            rw [hv4] at h
            simp only [Option.map_some', Option.bind_eq_bind, Option.some_bind,
              Option.pure_def, Option.some.injEq, if_true] at h
            subst h
            have hn32 : n < 2 ^ 32 := parseV4_lt hv4
            have h32 : (2 : ℕ) ^ 32 = 65536 * 65536 := by norm_num
            intro x hx
            rcases List.mem_append.mp hx with hx' | hx'
            · exact parseHextets_lt hinit x hx'
            · rcases List.mem_cons.mp hx' with rfl | hx''
              · exact Nat.div_lt_of_lt_mul (by omega)
              · rcases List.mem_cons.mp hx'' with rfl | hx'''
                · exact Nat.mod_lt _ (by norm_num)
                · simp at hx'''
        | false =>
          simp only [hdot, Bool.false_eq_true, if_false] at h
          cases hv : parseHextet last with
          | none => rw [hv] at h; exact absurd h (by simp)
          | some u =>
            rw [hv] at h
            simp only [Option.map_some', Option.bind_eq_bind, Option.some_bind,
              Option.pure_def, Option.some.injEq, Bool.false_eq_true, if_false] at h
            subst h
            intro x hx
            rcases List.mem_append.mp hx with hx' | hx'
            · exact parseHextets_lt hinit x hx'
            · rcases List.mem_cons.mp hx' with rfl | hx''
              · exact parseHextet_lt hv
              · simp at hx''

theorem assembleFold_lt {us : List ℕ} (h : ∀ u ∈ us, u < 65536) (acc : ℕ) :
    us.foldl (fun a u => a * 65536 + u) acc < (acc + 1) * 65536 ^ us.length := by
  induction us generalizing acc with
  | nil => simp
  | cons u us ih =>
    have hu : u < 65536 := h u (by simp)
    have htail := ih (fun x hx => h x (by simp [hx])) (acc * 65536 + u)
    calc List.foldl (fun a u => a * 65536 + u) (acc * 65536 + u) us
        < (acc * 65536 + u + 1) * 65536 ^ us.length := htail
      _ ≤ ((acc + 1) * 65536) * 65536 ^ us.length := Nat.mul_le_mul_right _ (by omega)
      _ = (acc + 1) * 65536 ^ (us.length + 1) := by ring

theorem assembleV6_lt {us : List ℕ} (h : ∀ u ∈ us, u < 65536) (hlen : us.length = 8) :
    assembleV6 us < 2 ^ 128 := by
  have := assembleFold_lt h 0
  have hpow : (65536 : ℕ) ^ us.length = 2 ^ 128 := by
    rw [hlen]; norm_num
  calc assembleV6 us < (0 + 1) * 65536 ^ us.length := this
    _ = 2 ^ 128 := by rw [hpow]; ring

theorem parseV6_lt {cs : Chars} {n : ℕ} (h : parseV6 cs = some n) : n < 2 ^ 128 := by
  unfold parseV6 at h
  split at h
  · rename_i whole
    simp only [Option.bind_eq_bind, Option.bind_eq_some, Option.pure_def] at h
    obtain ⟨units, hunits, h8⟩ := h
    split at h8
    · rename_i hlen
      cases h8
      exact assembleV6_lt (parseTailGroups_lt hunits) hlen
    · exact absurd h8 (by simp)
  · rename_i l r heq2
    cases hleft : parseLeftGroups l with
    | none => rw [hleft] at h; exact absurd h (by simp)
    | some left =>
      rw [hleft] at h
      cases hright : parseTailGroups r with
      | none => rw [hright] at h; exact absurd h (by simp)
      | some right =>
        rw [hright] at h
        simp only [Option.bind_eq_bind, Option.some_bind, Option.pure_def] at h
        split at h
        · rename_i hlen
          cases h
          have hleftlt : ∀ v ∈ left, v < 65536 := by
            unfold parseLeftGroups at hleft
            split at hleft
            · cases hleft; simp
            · exact parseHextets_lt hleft
          refine assembleV6_lt ?_ ?_
          · intro u hu
            rcases List.mem_append.mp hu with hu' | hu'
            · rcases List.mem_append.mp hu' with hu'' | hu''
              · exact hleftlt u hu''
              · rw [List.eq_of_mem_replicate hu'']; norm_num
            · exact parseTailGroups_lt hright u hu'
          · simp only [List.length_append, List.length_replicate]
            omega
        · exact absurd h (by simp)
  · exact absurd h (by simp)

theorem to_int_lt {v : ℕ} {s : Chars} {n : ℕ} (h : to_int v s = .ok n) :
    n < 2 ^ bitFor v := by
  unfold to_int at h
  unfold bitFor
  split at h
  · rename_i hv
    simp only [hv, if_pos rfl]
    unfold v4_to_int at h
    split at h
    · rename_i m hm
      cases h
      exact parseV4_lt hm
    · exact absurd h (by simp)
  · rename_i hv
    rw [if_neg hv]
    unfold v6_to_int at h
    split at h
    · rename_i m hm
      cases h
      exact parseV6_lt hm
    · exact absurd h (by simp)

theorem iterLoop_eq (start stop : ℕ) : ∀ fuel index, stop + 1 - (start + index) = fuel →
    iterLoop start stop index = (List.range fuel).map (fun j => start + index + j) := by
  intro fuel
  induction fuel with
  | zero =>
    intro index h
    rw [iterLoop, if_pos (by omega)]
    simp
  | succ n ih =>
    intro index h
    rw [iterLoop, if_neg (by omega)]
    rw [ih (index + 1) (by omega)]
    rw [List.range_succ_eq_map, List.map_cons, List.map_map]
    simp only [Function.comp, Nat.add_zero]
    congr 1
    congr 1
    funext j
    simp only [Function.comp_apply]
    omega

theorem iterRange_eq (lo hi : ℕ) :
    iterRange lo hi = (List.range (hi + 1 - lo)).map (fun j => lo + j) := by
  unfold iterRange
  rw [iterLoop_eq lo hi (hi + 1 - lo) 0 (by omega)]
  simp

theorem pyRangeList_shift (c start stop step : Int) :
    pyRangeList (c + start) (c + stop) step =
      (pyRangeList start stop step).map (fun x => c + x) := by
  have hlen : pyRangeLen (c + start) (c + stop) step = pyRangeLen start stop step := by
    unfold pyRangeLen
    rw [show c + stop - (c + start) - 1 = stop - start - 1 by ring,
      show c + start - (c + stop) - 1 = start - stop - 1 by ring]
    by_cases h1 : 0 < step
    · rw [if_pos h1, if_pos h1]
      by_cases h2 : stop ≤ start
      · rw [if_pos (by omega), if_pos h2]
      · rw [if_neg (by omega), if_neg h2]
    · rw [if_neg h1, if_neg h1]
      by_cases h2 : start ≤ stop
      · rw [if_pos (by omega), if_pos h2]
      · rw [if_neg (by omega), if_neg h2]
  unfold pyRangeList
  rw [hlen, List.map_map]
  congr 1
  funext i
  simp
  ring


theorem expandCore_err {v : ℕ} (net s : Chars) {p : Int}
    (hgt : p > (bitFor v : Int)) :
    expandCore v net s p = .error (.valueError (msgInvalidIPNetwork ++ net)) := by
  unfold expandCore
  rw [if_pos hgt]

theorem expandCore_ok_eq {v : ℕ} {s : Chars} {ip : ℕ} (net : Chars) {p : Int}
    (hip : to_int v s = .ok ip) (hgt : ¬ p > (bitFor v : Int)) :
    expandCore v net s p =
      .ok ((ip >>> ((bitFor v : Int) - p).toNat) <<< ((bitFor v : Int) - p).toNat,
        ((ip >>> ((bitFor v : Int) - p).toNat) <<< ((bitFor v : Int) - p).toNat) |||
          ((1 <<< ((bitFor v : Int) - p).toNat) - 1)) := by
  unfold expandCore
  rw [if_neg hgt, hip]
  rfl

/-! ## Claims -/

/-- C1 (amended). For CIDR construction with a non-negative parsed prefix
and for dash-text span construction, the stored bounds satisfy `lo ≤ hi`
and both fit the version's bit width; explicit `(start, stop)` pair
construction produces bounds that fit the bit width but performs no
ordering check, and CIDR construction with a negative prefix succeeds with
`hi` exceeding the bit width, so the claim's unconditional invariant fails
(see the counterexample). -/
theorem pyip_C1_range_invariant (v : ℕ) :
    (∀ net s p lo hi, 0 ≤ p → expandCore v net s p = .ok (lo, hi) →
      lo ≤ hi ∧ hi < 2 ^ bitFor v) ∧
    (∀ r lo hi, expandRange v r = .ok (lo, hi) → lo ≤ hi ∧ hi < 2 ^ bitFor v) ∧
    (∀ s t lo hi, pairRange v s t = .ok (lo, hi) →
      lo < 2 ^ bitFor v ∧ hi < 2 ^ bitFor v) := by
  refine ⟨?_, ?_, ?_⟩
  · intro net s p lo hi hp h
    by_cases hgt : p > (bitFor v : Int)
    · rw [expandCore_err net s hgt] at h
      cases h
    · cases hto : to_int v s with
      | error e =>
        unfold expandCore at h
        rw [if_neg hgt, hto] at h
        cases h
      | ok ip =>
        rw [expandCore_ok_eq net hto hgt] at h
        cases h
        exact @mask_bounds (bitFor v) (((bitFor v : Int) - p).toNat) ip
          (by omega) (to_int_lt hto)
  · intro r lo hi h
    unfold expandRange at h
    split at h
    · rename_i a b hsplit
      unfold expandRangeParts at h
      cases ha : to_int v (pyStrip a) with
      | error e => rw [ha] at h; cases h
      | ok lo' =>
        rw [ha] at h
        cases hb : to_int v (pyStrip b) with
        | error e => rw [hb] at h; cases h
        | ok hi' =>
          rw [hb] at h
          replace h : (if hi' < lo'
              then (.error (.valueError msgBoundOrder) : Except Err (ℕ × ℕ))
              else .ok (lo', hi')) = .ok (lo, hi) := h
          split at h
          · cases h
          · rename_i horder
            cases h
            exact ⟨by omega, to_int_lt hb⟩
    · cases h
  · intro s t lo hi h
    unfold pairRange at h
    cases ha : to_int v (pyStrip s) with
    | error e => rw [ha] at h; cases h
    | ok lo' =>
      rw [ha] at h
      cases hb : to_int v (pyStrip t) with
      | error e => rw [hb] at h; cases h
      | ok hi' =>
        rw [hb] at h
        replace h : (Except.ok (lo', hi') : Except Err (ℕ × ℕ)) = .ok (lo, hi) := h
        cases h
        exact ⟨to_int_lt ha, to_int_lt hb⟩

/-- C1 witness: the invariant holds on the concrete range `10.0.0.0/24`. -/
theorem pyip_C1_range_invariant_wit :
    (167772160 : ℕ) ≤ 167772415 ∧ (167772415 : ℕ) < 2 ^ bitFor 4 :=
  (pyip_C1_range_invariant 4).1 tNet24 t10_0_0_0 24 167772160 167772415
    (by decide) (by decide)

/-- C1 counterexample: the explicit pair `(10.0.0.10, 10.0.0.5)` constructs
a range with `lo > hi`, and the CIDR `10.0.0.0` with negative prefix `-1`
constructs a range whose upper bound exceeds `2^32 - 1`, refuting the
claimed unconditional invariant over successfully constructed ranges. -/
theorem pyip_C1_cex :
    pairRange 4 t10_0_0_10 t10_0_0_5 = .ok (167772170, 167772165) ∧
    ¬ (167772170 : ℕ) ≤ 167772165 ∧
    expandCore 4 tNetNeg t10_0_0_0 (-1) = .ok (0, 8589934591) ∧
    ¬ (8589934591 : ℕ) < 2 ^ bitFor 4 :=
  ⟨by rfl, by decide, by rfl, by decide⟩

/-- C2 (amended). Dash-text span construction fails with the
`lower bound IP greater than upper bound` `ValueError` exactly when the
parsed end bound is numerically below the start bound — but the explicit
`(start, stop)` pair constructor performs no such check and returns the
bounds as converted, so the claim fails for the pair form (see the
counterexample). -/
theorem pyip_C2_span_order (v : ℕ) (a b : Chars) (lo hi : ℕ)
    (ha : to_int v (pyStrip a) = .ok lo) (hb : to_int v (pyStrip b) = .ok hi) :
    expandRangeParts v a b =
      (if hi < lo then .error (.valueError msgBoundOrder) else .ok (lo, hi)) ∧
    pairRange v a b = .ok (lo, hi) := by
  unfold expandRangeParts pairRange
  rw [ha, hb]
  exact ⟨rfl, rfl⟩

/-- C2 witness: on the dash span `10.0.0.10 - 10.0.0.5` the ordering check
fires, while the pair form returns the unordered bounds. -/
theorem pyip_C2_span_order_wit :
    expandRangeParts 4 t10_0_0_10 t10_0_0_5 =
      (if (167772165 : ℕ) < 167772170 then .error (.valueError msgBoundOrder)
        else .ok (167772170, 167772165)) ∧
    pairRange 4 t10_0_0_10 t10_0_0_5 = .ok (167772170, 167772165) :=
  pyip_C2_span_order 4 t10_0_0_10 t10_0_0_5 167772170 167772165
    (by rfl) (by rfl)

/-- C2 counterexample: the pair construction with start `10.0.0.10` and
stop `10.0.0.5` succeeds even though the end is numerically below the
start, refuting the claim that every span construction with reversed
bounds fails with `InvalidRange`. -/
theorem pyip_C2_cex :
    to_int 4 (pyStrip t10_0_0_10) = .ok 167772170 ∧
    to_int 4 (pyStrip t10_0_0_5) = .ok 167772165 ∧
    (167772165 : ℕ) < 167772170 ∧
    mkIPRange none (some t10_0_0_10) (some t10_0_0_5) none =
      .ok { version := 4, range := (167772170, 167772165) } :=
  ⟨by rfl, by rfl, by decide, by rfl⟩

/-- C3 (amended). For a CIDR whose address part converts successfully,
construction fails exactly when the parsed prefix exceeds the bit width;
a negative prefix is accepted (the source checks only `int(cidr) > bit`),
so the claimed rejection of prefixes below `0` does not happen (see the
counterexample). -/
theorem pyip_C3_cidr_check (v : ℕ) (net s : Chars) (p : Int) (ip : ℕ)
    (hip : to_int v s = .ok ip) :
    isErr (expandCore v net s p) = decide ((bitFor v : Int) < p) := by
  by_cases hgt : p > (bitFor v : Int)
  · rw [expandCore_err net s hgt]
    simp only [isErr]
    exact (decide_eq_true hgt).symm
  · rw [expandCore_ok_eq net hip hgt]
    simp only [isErr]
    exact (decide_eq_false hgt).symm

/-- C3 witness: `10.0.0.0/24` passes the prefix check and constructs. -/
theorem pyip_C3_cidr_check_wit :
    isErr (expandCore 4 tNet24 t10_0_0_0 24) = decide ((bitFor 4 : Int) < 24) :=
  pyip_C3_cidr_check 4 tNet24 t10_0_0_0 24 167772160 (by rfl)

/-- C3 counterexample: the CIDR `10.0.0.0` with prefix `-1` — a prefix
outside `[0, 32]` — constructs successfully instead of failing, refuting
the claimed equivalence. -/
theorem pyip_C3_cex :
    expand 4 tNetNeg = .ok (0, 8589934591) ∧
    ((-1 : Int) < 0) ∧
    isErr (expand 4 tNetNeg) = false :=
  ⟨by rfl, by decide, by rfl⟩

/-- C4 (confirmed). For every CIDR whose address converts to `ip` and whose
prefix `p` satisfies `0 ≤ p ≤ bitwidth`, the bounds are exactly
`lo = (ip >> (bitwidth-p)) << (bitwidth-p)` and
`hi = lo ||| ((1 << (bitwidth-p)) - 1)`, and the length is the exact
integer `hi - lo + 1 = 2^(bitwidth-p)` with no truncation. -/
theorem pyip_C4_cidr_formula (v : ℕ) (net s : Chars) (p : Int) (ip : ℕ)
    (hip : to_int v s = .ok ip) (_h0 : 0 ≤ p) (hb : p ≤ (bitFor v : Int)) :
    expandCore v net s p =
      .ok ((ip >>> ((bitFor v : Int) - p).toNat) <<< ((bitFor v : Int) - p).toNat,
        ((ip >>> ((bitFor v : Int) - p).toNat) <<< ((bitFor v : Int) - p).toNat) |||
          ((1 <<< ((bitFor v : Int) - p).toNat) - 1)) ∧
    (∀ lo hi : ℕ, expandCore v net s p = .ok (lo, hi) →
      lenZ lo hi = (hi : Int) - (lo : Int) + 1 ∧
      lenZ lo hi = 2 ^ ((bitFor v : Int) - p).toNat) := by
  have hexp := @expandCore_ok_eq v s ip net p hip (by omega)
  refine ⟨hexp, ?_⟩
  intro lo hi h
  rw [hexp] at h
  cases h
  constructor
  · unfold lenZ; ring
  · have hadd : ((ip >>> ((bitFor v : Int) - p).toNat) <<<
        ((bitFor v : Int) - p).toNat) |||
          ((1 <<< ((bitFor v : Int) - p).toNat) - 1) =
        (ip >>> ((bitFor v : Int) - p).toNat) <<< ((bitFor v : Int) - p).toNat +
          (2 ^ ((bitFor v : Int) - p).toNat - 1) := by
      rw [lo_or_mask, Nat.shiftLeft_eq]
    have hpow : (1 : ℕ) ≤ 2 ^ ((bitFor v : Int) - p).toNat := Nat.one_le_two_pow
    unfold lenZ
    rw [hadd]
    push_cast [hpow]
    ring

/-- C4 witness: `10.0.0.0/24` expands to bounds with length `2^8 = 256`
(and the upper bound equals the integer of `10.0.0.255`), and
`2001:db8::/32` expands with exact length `2^96`. -/
theorem pyip_C4_cidr_formula_wit :
    expandCore 4 tNet24 t10_0_0_0 24 = .ok (167772160, 167772415) ∧
    lenZ 167772160 167772415 = 2 ^ 8 ∧ (2 : Int) ^ 8 = 256 ∧
    v4_to_int t10_0_0_255 = .ok 167772415 ∧
    expandCore 6 tV6Net32 tV6Ip 32 =
      .ok (42540766411282592856903984951653826560,
        42540766490510755371168322545197776895) ∧
    lenZ 42540766411282592856903984951653826560
      42540766490510755371168322545197776895 = 2 ^ 96 := by
  have h4 := pyip_C4_cidr_formula 4 tNet24 t10_0_0_0 24 167772160
    (by rfl) (by decide) (by decide)
  have h6 := pyip_C4_cidr_formula 6 tV6Net32 tV6Ip 32
    42540766411282592856903984951653826560 (by rfl) (by decide) (by decide)
  have e4 : expandCore 4 tNet24 t10_0_0_0 24 = .ok (167772160, 167772415) :=
    h4.1.trans (by rfl)
  have e6 : expandCore 6 tV6Net32 tV6Ip 32 =
      .ok (42540766411282592856903984951653826560,
        42540766490510755371168322545197776895) :=
    h6.1.trans (by rfl)
  have l4 := (h4.2 167772160 167772415 e4).2
  have l6 := (h6.2 42540766411282592856903984951653826560
    42540766490510755371168322545197776895 e6).2
  exact ⟨e4, l4.trans (by decide), by decide, by rfl, e6, l6.trans (by decide)⟩

/-- C5 (amended). After `slice.indices` normalization to
`(start, stop, step)`, the slice result is the single address at `lo`
whenever the source's guard `start + step < 0 or step > stop` holds, and
otherwise it is exactly the sequence Python slice semantics prescribe
(`lo + x` for `x` in `range(start, stop, step)`).  The guard does not
coincide with emptiness of the normalized slice, so the claim's "empty
slice ↦ `[Address(lo)]`, nonempty slice ↦ Python sequence" description
fails in both directions (see the counterexample). -/
theorem pyip_C5_slice (lo hi : ℕ) (s t k : Option Int) (start stop step : Int)
    (h : pyIndices (lenZ lo hi) s t k = some (start, stop, step)) :
    getitemSlice lo hi s t k =
      .ok (if start + step < 0 ∨ step > stop then [(lo : Int)]
        else (pyRangeList start stop step).map (fun x => (lo : Int) + x)) := by
  unfold getitemSlice
  rw [h]
  show (if start + step < 0 ∨ step > stop
      then (Except.ok [(lo : Int)] : Except Err (List Int))
      else .ok (pyRangeList ((lo : Int) + start) ((lo : Int) + stop) step)) = _
  by_cases hg : start + step < 0 ∨ step > stop
  · rw [if_pos hg, if_pos hg]
  · rw [if_neg hg, if_neg hg, pyRangeList_shift]

/-- C5 witness: the slice `[0:3]` of `10.0.0.0/24` is the first three
addresses, matching the Python-prescribed sequence. -/
theorem pyip_C5_slice_wit :
    getitemSlice 167772160 167772415 (some 0) (some 3) (some 1) =
      .ok (if (0 : Int) + 1 < 0 ∨ (1 : Int) > 3 then [((167772160 : ℕ) : Int)]
        else (pyRangeList 0 3 1).map (fun x => ((167772160 : ℕ) : Int) + x)) :=
  pyip_C5_slice 167772160 167772415 (some 0) (some 3) (some 1) 0 3 1 (by rfl)

/-- C5 counterexample: on `10.0.0.0/24`, the slice `[1::-2]` normalizes to
`(1, -1, -2)` and selects exactly index 1, so the claim requires
`[Address(lo + 1)]`, but the code returns `[Address(lo)]`; and the slice
`[5:5]` normalizes to an empty selection, so the claim requires
`[Address(lo)]`, but the code returns the empty sequence. -/
theorem pyip_C5_cex :
    pySliceExpected 167772160 167772415 (some 1) none (some (-2)) =
      some [167772161] ∧
    getitemSlice 167772160 167772415 (some 1) none (some (-2)) =
      .ok [167772160] ∧
    pySliceExpected 167772160 167772415 (some 5) (some 5) none = some [] ∧
    getitemSlice 167772160 167772415 (some 5) (some 5) none = .ok [] :=
  ⟨by rfl, by rfl, by rfl, by rfl⟩

/-- C6 (confirmed). For every range and integer index `i` (with
`N = len(self)` computed as `(hi + 1) - lo`): a negative `i` with
`-N ≤ i < 0` resolves to the address `hi + i + 1`, an `i` with
`0 ≤ i < N` resolves to `lo + i`, and every other integer fails with
`IndexError` (the source's `IndexOutOfRange`). -/
theorem pyip_C6_scalar_index (lo hi : ℕ) (i : Int) :
    (-(lenZ lo hi) ≤ i ∧ i < 0 → getitemInt lo hi i = .ok ((hi : Int) + i + 1)) ∧
    (0 ≤ i ∧ i < lenZ lo hi → getitemInt lo hi i = .ok ((lo : Int) + i)) ∧
    (¬ (-(lenZ lo hi) ≤ i ∧ i < 0) → ¬ (0 ≤ i ∧ i < lenZ lo hi) →
      getitemInt lo hi i = .error .indexError) := by
  unfold getitemInt
  refine ⟨?_, ?_, ?_⟩
  · intro hneg
    rw [if_pos hneg]
  · intro hpos
    rw [if_neg (by omega), if_pos (by omega)]
  · intro hneg hpos
    rw [if_neg (by omega), if_neg (by omega)]

/-- C6 witness: on `10.0.0.0/24` (length 256), `get(-1)` is the top
address, `get(-256)` and `get(0)` are the bottom address, and `get(256)`
fails with `IndexError`. -/
theorem pyip_C6_scalar_index_wit :
    getitemInt 167772160 167772415 (-1) = .ok 167772415 ∧
    getitemInt 167772160 167772415 (-256) = .ok 167772160 ∧
    getitemInt 167772160 167772415 0 = .ok 167772160 ∧
    getitemInt 167772160 167772415 256 = .error .indexError := by
  have h1 := (pyip_C6_scalar_index 167772160 167772415 (-1)).1 (by decide)
  have h2 := (pyip_C6_scalar_index 167772160 167772415 (-256)).1 (by decide)
  have h3 := (pyip_C6_scalar_index 167772160 167772415 0).2.1 (by decide)
  have h4 := (pyip_C6_scalar_index 167772160 167772415 256).2.2
    (by decide) (by decide)
  exact ⟨h1.trans (by decide), h2.trans (by decide), h3.trans (by decide), h4⟩

/-- C7 (amended). An index on which Python `int(...)` fails (for example
non-numeric text) raises `TypeError` (the source's `InvalidIndexType`) —
but a float index is silently truncated toward zero by `int(index)` and a
numeric string is parsed, both then indexing like the resulting integer,
so the claim that every non-integer, non-slice index fails is wrong (see
the counterexample). -/
theorem pyip_C7_index_type (lo hi : ℕ) (s : Chars) (q : ℚ) (i : Int) :
    (pyIntOfChars s = none → getitemF lo hi (.text s) = .error .typeError) ∧
    (getitemF lo hi (.float q) = (getitemInt lo hi (pyTrunc q)).map .one) ∧
    (getitemF lo hi (.int i) = (getitemInt lo hi i).map .one) := by
  refine ⟨?_, rfl, rfl⟩
  intro h
  show (match pyIntOfChars s with
    | none => (Except.error Err.typeError : Except Err GetItem)
    | some i => (getitemInt lo hi i).map .one) = .error .typeError
  rw [h]

/-- C7 witness: the non-numeric index `"abc"` fails with `TypeError`, and
a float index behaves like its truncation. -/
theorem pyip_C7_index_type_wit :
    getitemF 167772160 167772415 (.text tAbc) = .error .typeError ∧
    getitemF 167772160 167772415 (.float qTwoPointSeven) =
      (getitemInt 167772160 167772415 (pyTrunc qTwoPointSeven)).map .one :=
  ⟨(pyip_C7_index_type 167772160 167772415 tAbc qTwoPointSeven 0).1 (by rfl),
    (pyip_C7_index_type 167772160 167772415 tAbc qTwoPointSeven 0).2.1⟩

/-- C7 counterexample: on `10.0.0.0/24`, the float index `2.7` is silently
truncated to position 2 and the numeric string `"5"` is silently parsed to
position 5 — both return an address instead of failing with
`InvalidIndexType`. -/
theorem pyip_C7_cex :
    getitemF 167772160 167772415 (.float qTwoPointSeven) =
      .ok (.one 167772162) ∧
    getitemF 167772160 167772415 (.text tFive) = .ok (.one 167772165) :=
  ⟨by rfl, by rfl⟩

/-- C8 (amended). `contains` returns `lo ≤ x ≤ hi` (and never raises) for
every candidate whose normalization by the *code's* rule succeeds: a raw
integer passes unchanged, text goes through the range's version codec, but
an `Address` is converted by `int(address)`, i.e. with the *address's own*
codec — not the range's, as the claim says — so a version-mismatched
`Address` can raise even when the range's codec accepts its text (see the
counterexample). -/
theorem pyip_C8_contains (v lo hi : ℕ) (cand : Cand) (x : Int)
    (h : containsKey v cand = .ok x) :
    containsRange lo hi v cand =
      .ok (decide ((lo : Int) ≤ x) && decide (x ≤ (hi : Int))) := by
  unfold containsRange
  rw [h]
  rfl

/-- C8 witness: the range `10.0.0.0/24` contains the text candidate
`10.0.0.5`. -/
theorem pyip_C8_contains_wit :
    containsRange 167772160 167772415 4 (.text t10_0_0_5) =
      .ok (decide ((167772160 : ℕ) ≤ (167772165 : Int)) &&
        decide ((167772165 : Int) ≤ (167772415 : ℕ))) :=
  pyip_C8_contains 4 167772160 167772415 (.text t10_0_0_5) 167772165 (by rfl)

/-- C8 counterexample: for the version-6 range `2001:db8::/32` and the
candidate `Address("::ffff:1.2.3.4")` (heuristically tagged version 4), the
range's own codec normalizes the text successfully, yet `contains` raises
(`ValueError` from the address's own version-4 conversion) instead of
returning false — refuting "never raises for a candidate that normalizes
successfully". -/
theorem pyip_C8_cex :
    mkIPNetwork tV6Net32 none =
      .ok ⟨tV6Net32, 6, (42540766411282592856903984951653826560,
        42540766490510755371168322545197776895)⟩ ∧
    rangeCodecNormalize 6 (.addr (mkIPAddress (.str tTail) none)) =
      .ok 281470698652420 ∧
    containsRange 42540766411282592856903984951653826560
        42540766490510755371168322545197776895 6
        (.addr (mkIPAddress (.str tTail) none)) =
      .error (.valueError (msgIllegalIP ++ tTail)) :=
  ⟨by rfl, by rfl, by rfl⟩

/-- C9 (amended). For every range with `lo ≤ hi`, iteration yields exactly
the `hi + 1 - lo` addresses `lo, lo + 1, …, hi` in strictly ascending
order, without duplicates, all within `[lo, hi]`, its length agreeing with
`len(self)`, and a fresh `iter_()` call starts again at `lo`; for the
degenerate ranges with `lo > hi` that the unchecked pair constructor can
produce, iteration yields nothing while the length is negative, so the
claim's unconditional form fails (see the counterexample). -/
theorem pyip_C9_iterate (lo hi : ℕ) (h : lo ≤ hi) :
    iterRange lo hi = (List.range (hi + 1 - lo)).map (fun j => lo + j) ∧
    (iterRange lo hi).length = hi + 1 - lo ∧
    ((iterRange lo hi).length : Int) = lenZ lo hi ∧
    List.Pairwise (· < ·) (iterRange lo hi) ∧
    (∀ x ∈ iterRange lo hi, lo ≤ x ∧ x ≤ hi) ∧
    (iterRange lo hi).Nodup ∧
    (iterRange lo hi).head? = some lo := by
  have he := iterRange_eq lo hi
  have hlen : (iterRange lo hi).length = hi + 1 - lo := by
    rw [he]; simp
  have hpw : List.Pairwise (· < ·) (iterRange lo hi) := by
    rw [he]
    exact (List.pairwise_lt_range _).map _ (fun a b hab => by omega)
  refine ⟨he, hlen, ?_, hpw, ?_, ?_, ?_⟩
  · rw [hlen]
    unfold lenZ
    omega
  · intro x hx
    rw [he] at hx
    simp only [List.mem_map, List.mem_range] at hx
    obtain ⟨j, hj, rfl⟩ := hx
    omega
  · exact hpw.imp (fun hab => Nat.ne_of_lt hab)
  · rw [he]
    obtain ⟨m, hm⟩ : ∃ m, hi + 1 - lo = m + 1 := ⟨hi - lo, by omega⟩
    rw [hm, List.range_succ_eq_map]
    simp

/-- C9 witness: iterating the span `10.0.0.5`–`10.0.0.10` yields its six
addresses in ascending order, and the count agrees with `len(self)`. -/
theorem pyip_C9_iterate_wit :
    iterRange 167772165 167772170 =
      [167772165, 167772166, 167772167, 167772168, 167772169, 167772170] ∧
    ((iterRange 167772165 167772170).length : Int) = lenZ 167772165 167772170 := by
  have h := pyip_C9_iterate 167772165 167772170 (by decide)
  exact ⟨h.1.trans (by decide), h.2.2.1⟩

/-- C9 counterexample: the pair-constructed range `(10.0.0.10, 10.0.0.5)`
has `len(self) = -4`, yet iteration yields no addresses at all — not
"exactly N addresses walking `lo … hi`" — refuting the claim's
unconditional form over every constructed range. -/
theorem pyip_C9_cex :
    pairRange 4 t10_0_0_10 t10_0_0_5 = .ok (167772170, 167772165) ∧
    iterRange 167772170 167772165 = [] ∧
    lenZ 167772170 167772165 = -4 ∧
    (([] : List ℕ).length : Int) ≠ -4 := by
  refine ⟨by rfl, ?_, by decide, by decide⟩
  rw [iterRange_eq]
  rfl

/-- C10 (amended). With no explicit version, classification of text looks
only for a `.` character, so the valid IPv6 text `::ffff:1.2.3.4` (an
embedded IPv4 tail) is tagged version 4: CIDR construction of
`::ffff:1.2.3.4/96` then fails (and succeeds when version 6 is forced),
while `Address` construction itself *succeeds* — it stores the text
unvalidated — and only its integer conversion fails (succeeding when
version 6 is forced).  The claim's statement that Address construction
fails is refuted by the counterexample. -/
theorem pyip_C10_v4tail_detect :
    get_version_str tTail = 4 ∧
    get_version_str tTailNet96 = 4 ∧
    mkIPNetwork tTailNet96 none =
      .error (.valueError (msgInvalidIPNetwork ++ tTailNet96)) ∧
    mkIPAddress (.str tTail) none = { ip := .str tTail, version := 4 } ∧
    ipaddr_int (mkIPAddress (.str tTail) none) =
      .error (.valueError (msgIllegalIP ++ tTail)) ∧
    ipaddr_int (mkIPAddress (.str tTail) (some 6)) = .ok 281470698652420 ∧
    mkIPNetwork tTailNet96 (some 6) =
      .ok ⟨tTailNet96, 6, (281470681743360, 281474976710655)⟩ :=
  ⟨by rfl, by rfl, by rfl, by rfl, by rfl, by rfl, by rfl⟩

/-- C10 counterexample: `Address("::ffff:1.2.3.4")` without an explicit
version does not fail — `IPAddress.__init__` stores the text and the
version-4 tag and raises nothing — refuting the claim that Address
construction fails on such input. -/
theorem pyip_C10_cex :
    mkIPAddress (.str tTail) none = { ip := .str tTail, version := 4 } := by
  rfl

end Pyip
